import Mathlib

/-!
Verification of the web-rwkv runtime core against its specification.

The development shallowly embeds the parts of the source that the
properties below speak about:

* `src/model/mod.rs` — the default implementation of `Model::run`
  (token chunking, `last` selection, error guards);
* `src/runtime/mod.rs` — the `JobRuntime::run` worker loop, modelled as
  a deterministic event-trace generator;
* `src/tensor/ops.rs` — shape validation of kernel entry points
  (`copy_tensor`, `matmul`, `quantize_mat_int8`);
* `src/runtime/model.rs` — `ContextAutoLimits::auto_limits`;
* `examples/chat.rs` — the occurrence-map update in the chat loop.

Machine integers are embedded as `Nat` with explicit `% 2 ^ w`
reductions where a cast can truncate.
-/

namespace WebRwkv

/-! ## Model run chunking (`src/model/mod.rs`) -/

/-- Embedding of the `ModelError` enum of `src/model/mod.rs`. -/
inductive ModelError
  | InvalidVersion
  | InvalidChunkSize (size : Nat)
  | BatchSize (lhs rhs : Nat)
  | BatchOutOfRange (batch max : Nat)
  | EmptyInput
deriving DecidableEq, Repr

/-- Total number of tokens over all batches, `tokens.iter().map(Vec::len).sum()`. -/
def sumLen (tokens : List (List Nat)) : Nat :=
  (tokens.map List.length).sum

/-- Embedding of the token-consuming loop of `Model::run`
(`src/model/mod.rs`).  Arguments mirror the loop's mutable state:
the remaining budget `num_token`, the running `index`, and the current
value of the `last` variable (overwritten on every iteration).
Returns `(inputs, tokens, last)`: the prefixes moved into `inputs`,
the tails left in `tokens`, and the final `last`.  The loop breaks as
soon as the budget reaches zero, leaving all later batches untouched
(their `inputs` slot stays empty, their tokens stay in place). -/
def chunkLoop : Nat → Nat → Option Nat → List (List Nat) →
    List (List Nat) × List (List Nat) × Option Nat
  | _, _, last, [] => ([], [], last)
  | budget, index, _, batch :: rest =>
    let mid := min batch.length budget
    let head := batch.take mid
    let tail := batch.drop mid
    let last := if tail = [] then none else some index
    if budget - mid = 0 then
      (head :: rest.map (fun _ => []), tail :: rest, last)
    else
      let r := chunkLoop (budget - mid) (index + 1) last rest
      (head :: r.1, tail :: r.2.1, r.2.2)

/-- Embedding of the default `Model::run` of `src/model/mod.rs` up to the
call of `run_internal`: the guards, the chunk-size clamp and the
token-consuming loop.  On success it returns the triple
`(inputs, tokens, last)` that the source passes to `run_internal`
(`inputs`), leaves in the `&mut` argument (`tokens`), and selects the
emitted batch with (`last`). -/
def modelRun (tokenChunkSize maxBatch : Nat) (tokens : List (List Nat)) :
    Except ModelError (List (List Nat) × List (List Nat) × Option Nat) :=
  let numToken := sumLen tokens
  if tokens.length ≠ maxBatch then
    .error (ModelError.BatchSize tokens.length maxBatch)
  else if numToken = 0 then
    .error ModelError.EmptyInput
  else
    .ok (chunkLoop (min numToken tokenChunkSize) 0 none tokens)

/-- Final value of the `&mut tokens` argument of `Model::run`: unchanged
when the call fails (the guards return before the loop mutates anything),
the loop's tails otherwise. -/
def modelRunTokens (tokenChunkSize maxBatch : Nat) (tokens : List (List Nat)) :
    List (List Nat) :=
  match modelRun tokenChunkSize maxBatch tokens with
  | .error _ => tokens
  | .ok r => r.2.1

/-- Greedy front-of-batch chunking in ascending batch order: batch `b`
contributes `min |tokens[b]| budget_b` tokens where `budget_b` is what is
left of the budget after the batches before `b`. -/
def greedyTake : Nat → List (List Nat) → List (List Nat)
  | _, [] => []
  | budget, batch :: rest =>
    batch.take (min batch.length budget) ::
      greedyTake (budget - min batch.length budget) rest

/-- Tails matching `greedyTake`: what each batch keeps after the greedy
chunk is drawn. -/
def greedyDrop : Nat → List (List Nat) → List (List Nat)
  | _, [] => []
  | budget, batch :: rest =>
    batch.drop (min batch.length budget) ::
      greedyDrop (budget - min batch.length budget) rest

/-- Characterization of the `last` value actually computed by the loop:
the first batch whose cumulative token count exhausts the budget is
recorded if and only if it is left with a nonempty tail; batches after
the exhaustion point are never inspected. -/
def lastSpec : Nat → Nat → List (List Nat) → Option Nat
  | _, _, [] => none
  | budget, index, batch :: rest =>
    if budget ≤ batch.length then
      if budget < batch.length then some index else none
    else
      lastSpec (budget - batch.length) (index + 1) rest

theorem greedyTake_zero (l : List (List Nat)) :
    greedyTake 0 l = l.map (fun _ => []) := by
  induction l with
  | nil => rfl
  | cons b r ih => simp [greedyTake, ih]

theorem greedyDrop_zero (l : List (List Nat)) : greedyDrop 0 l = l := by
  induction l with
  | nil => rfl
  | cons b r ih => simp [greedyDrop, ih]

theorem chunkLoop_cons_break (budget index : Nat) (l0 : Option Nat)
    (b : List Nat) (r : List (List Nat)) (h : budget ≤ b.length) :
    chunkLoop budget index l0 (b :: r) =
      (b.take budget :: r.map (fun _ => []), b.drop budget :: r,
        if budget < b.length then some index else none) := by
  have hmid : min b.length budget = budget := by omega
  simp only [chunkLoop, hmid]
  rw [if_pos (Nat.sub_self budget)]
  by_cases hlt : budget < b.length
  · have hne : b.drop budget ≠ [] := by
      rw [Ne, List.drop_eq_nil_iff]
      omega
    simp [hne, hlt]
  · have hnil : b.drop budget = [] := List.drop_eq_nil_of_le (by omega)
    simp [hnil, hlt]

theorem chunkLoop_cons_step (budget index : Nat) (l0 : Option Nat)
    (b : List Nat) (r : List (List Nat)) (h : b.length < budget) :
    chunkLoop budget index l0 (b :: r) =
      (b :: (chunkLoop (budget - b.length) (index + 1) none r).1,
       [] :: (chunkLoop (budget - b.length) (index + 1) none r).2.1,
       (chunkLoop (budget - b.length) (index + 1) none r).2.2) := by
  have hmid : min b.length budget = b.length := by omega
  have hz : budget - b.length ≠ 0 := by omega
  simp only [chunkLoop, hmid]
  rw [if_neg hz]
  simp [List.take_of_length_le (le_refl b.length), List.drop_length]

theorem chunkLoop_fst (budget index : Nat) (l0 : Option Nat)
    (bs : List (List Nat)) :
    (chunkLoop budget index l0 bs).1 = greedyTake budget bs := by
  induction bs generalizing budget index l0 with
  | nil => rfl
  | cons b r ih =>
    by_cases h : budget ≤ b.length
    · have hmid : min b.length budget = budget := by omega
      rw [chunkLoop_cons_break budget index l0 b r h]
      simp only [greedyTake, hmid, Nat.sub_self, greedyTake_zero]
    · have hmid : min b.length budget = b.length := by omega
      rw [chunkLoop_cons_step budget index l0 b r (by omega)]
      simp only [greedyTake, hmid, List.take_of_length_le (le_refl b.length)]
      rw [ih]

theorem chunkLoop_tokens (budget index : Nat) (l0 : Option Nat)
    (bs : List (List Nat)) :
    (chunkLoop budget index l0 bs).2.1 = greedyDrop budget bs := by
  induction bs generalizing budget index l0 with
  | nil => rfl
  | cons b r ih =>
    by_cases h : budget ≤ b.length
    · have hmid : min b.length budget = budget := by omega
      rw [chunkLoop_cons_break budget index l0 b r h]
      simp only [greedyDrop, hmid, Nat.sub_self, greedyDrop_zero]
    · have hmid : min b.length budget = b.length := by omega
      rw [chunkLoop_cons_step budget index l0 b r (by omega)]
      simp only [greedyDrop, hmid, List.drop_length]
      rw [ih]

theorem chunkLoop_last (budget index : Nat) (bs : List (List Nat)) :
    (chunkLoop budget index none bs).2.2 = lastSpec budget index bs := by
  induction bs generalizing budget index with
  | nil => rfl
  | cons b r ih =>
    by_cases h : budget ≤ b.length
    · rw [chunkLoop_cons_break budget index none b r h]
      simp only [lastSpec, if_pos h]
    · rw [chunkLoop_cons_step budget index none b r (by omega)]
      simp only [lastSpec, if_neg h]
      exact ih (budget - b.length) (index + 1)

theorem greedyTake_sumLen (budget : Nat) (bs : List (List Nat)) :
    sumLen (greedyTake budget bs) = min budget (sumLen bs) := by
  induction bs generalizing budget with
  | nil => simp [greedyTake, sumLen]
  | cons b r ih =>
    simp only [greedyTake, sumLen, List.map_cons, List.sum_cons, List.length_take]
    have := ih (budget - min b.length budget)
    simp only [sumLen] at this
    rw [this]
    omega

theorem greedyTake_length (budget : Nat) (bs : List (List Nat)) :
    (greedyTake budget bs).length = bs.length := by
  induction bs generalizing budget with
  | nil => rfl
  | cons b r ih => simp [greedyTake, ih]

theorem greedyDrop_length (budget : Nat) (bs : List (List Nat)) :
    (greedyDrop budget bs).length = bs.length := by
  induction bs generalizing budget with
  | nil => rfl
  | cons b r ih => simp [greedyDrop, ih]

theorem greedy_take_drop_append (budget : Nat) (bs : List (List Nat)) (i : Nat) :
    (greedyTake budget bs).getD i [] ++ (greedyDrop budget bs).getD i [] =
      bs.getD i [] := by
  induction bs generalizing budget i with
  | nil => simp [greedyTake, greedyDrop]
  | cons b r ih =>
    cases i with
    | zero => simp [greedyTake, greedyDrop, List.take_append_drop]
    | succ n => simpa [greedyTake, greedyDrop] using ih _ n

theorem modelRun_ok (cs mb : Nat) (tokens : List (List Nat))
    (hb : tokens.length = mb) (ht : 0 < sumLen tokens) :
    modelRun cs mb tokens =
      .ok (greedyTake (min (sumLen tokens) cs) tokens,
           greedyDrop (min (sumLen tokens) cs) tokens,
           lastSpec (min (sumLen tokens) cs) 0 tokens) := by
  have h1 : ¬ tokens.length ≠ mb := by simp [hb]
  have h2 : ¬ sumLen tokens = 0 := by omega
  simp only [modelRun, if_neg h1, if_neg h2]
  rw [show chunkLoop (min (sumLen tokens) cs) 0 none tokens =
        ((chunkLoop (min (sumLen tokens) cs) 0 none tokens).1,
         (chunkLoop (min (sumLen tokens) cs) 0 none tokens).2.1,
         (chunkLoop (min (sumLen tokens) cs) 0 none tokens).2.2) from rfl,
      chunkLoop_fst, chunkLoop_tokens, chunkLoop_last]

/-- C1: when `tokens.len()` equals `state.max_batch()` and the total token
count is positive, `Model::run` consumes exactly
`min(total, token_chunk_size)` tokens, drawn greedily from the front of
each batch in ascending batch order; the removed prefixes are exactly the
per-batch inputs passed to `run_internal` and the tails are what remains
in `tokens` for the next call. -/
theorem run_chunking_correct (cs mb : Nat) (tokens : List (List Nat))
    (hb : tokens.length = mb) (ht : 0 < sumLen tokens) :
    ∃ last,
      modelRun cs mb tokens =
        .ok (greedyTake (min (sumLen tokens) cs) tokens,
             greedyDrop (min (sumLen tokens) cs) tokens, last) ∧
      sumLen (greedyTake (min (sumLen tokens) cs) tokens) =
        min (sumLen tokens) cs ∧
      (greedyTake (min (sumLen tokens) cs) tokens).length = tokens.length ∧
      (greedyDrop (min (sumLen tokens) cs) tokens).length = tokens.length ∧
      ∀ i, (greedyTake (min (sumLen tokens) cs) tokens).getD i [] ++
             (greedyDrop (min (sumLen tokens) cs) tokens).getD i [] =
           tokens.getD i [] := by
  refine ⟨lastSpec (min (sumLen tokens) cs) 0 tokens,
    modelRun_ok cs mb tokens hb ht, ?_, greedyTake_length _ _,
    greedyDrop_length _ _, fun i => greedy_take_drop_append _ _ i⟩
  rw [greedyTake_sumLen]
  omega

/-- Witness for C1 at a concrete input: two batches `[1,2,3]` and `[4]`
with `token_chunk_size = 2`. -/
theorem run_chunking_correct_witness :
    (([[1, 2, 3], [4]] : List (List Nat)).length = 2 ∧
      0 < sumLen [[1, 2, 3], [4]]) ∧
    ∃ last,
      modelRun 2 2 [[1, 2, 3], [4]] =
        .ok (greedyTake (min (sumLen [[1, 2, 3], [4]]) 2) [[1, 2, 3], [4]],
             greedyDrop (min (sumLen [[1, 2, 3], [4]]) 2) [[1, 2, 3], [4]],
             last) ∧
      sumLen (greedyTake (min (sumLen [[1, 2, 3], [4]]) 2) [[1, 2, 3], [4]]) =
        min (sumLen [[1, 2, 3], [4]]) 2 ∧
      (greedyTake (min (sumLen [[1, 2, 3], [4]]) 2) [[1, 2, 3], [4]]).length =
        ([[1, 2, 3], [4]] : List (List Nat)).length ∧
      (greedyDrop (min (sumLen [[1, 2, 3], [4]]) 2) [[1, 2, 3], [4]]).length =
        ([[1, 2, 3], [4]] : List (List Nat)).length ∧
      ∀ i, (greedyTake (min (sumLen [[1, 2, 3], [4]]) 2) [[1, 2, 3], [4]]).getD i [] ++
             (greedyDrop (min (sumLen [[1, 2, 3], [4]]) 2) [[1, 2, 3], [4]]).getD i [] =
           ([[1, 2, 3], [4]] : List (List Nat)).getD i [] :=
  ⟨⟨by decide, by decide⟩,
    run_chunking_correct 2 2 [[1, 2, 3], [4]] (by decide) (by decide)⟩

/-- C2 counterexample: with `token_chunk_size = 2` and
`tokens = [[1,2],[3]]`, the chunk consumes batch 0 exactly and the loop
breaks before visiting batch 1, so `last = None` even though batch 1
still has leftover tokens — refuting "`last` is `None` exactly when no
batch has leftover tokens". -/
theorem run_last_claim_cex :
    ∃ inputs rest, modelRun 2 2 [[1, 2], [3]] = .ok (inputs, rest, none) ∧
      rest.getD 1 [] ≠ [] :=
  ⟨[[1, 2], []], [[], [3]], rfl, by decide⟩

/-- C2 (amended): `last` equals `lastSpec budget 0 tokens`, i.e. `Some e`
where `e` is the first batch at which the cumulative token count reaches
the chunk budget `min(total, token_chunk_size)` — provided that batch is
left with a nonempty tail — and `None` otherwise.  Batches after `e` are
never inspected, so their leftover tokens are not reflected in `last`. -/
theorem run_last_batch (cs mb : Nat) (tokens : List (List Nat))
    (hb : tokens.length = mb) (ht : 0 < sumLen tokens) :
    ∃ inputs rest,
      modelRun cs mb tokens =
        .ok (inputs, rest, lastSpec (min (sumLen tokens) cs) 0 tokens) :=
  ⟨_, _, modelRun_ok cs mb tokens hb ht⟩

/-- Witness for the amended C2 at a concrete input. -/
theorem run_last_batch_witness :
    (([[1, 2, 3], [4, 5]] : List (List Nat)).length = 2 ∧
      0 < sumLen [[1, 2, 3], [4, 5]]) ∧
    ∃ inputs rest,
      modelRun 4 2 [[1, 2, 3], [4, 5]] =
        .ok (inputs, rest, lastSpec (min (sumLen [[1, 2, 3], [4, 5]]) 4) 0
          [[1, 2, 3], [4, 5]]) :=
  ⟨⟨by decide, by decide⟩,
    run_last_batch 4 2 [[1, 2, 3], [4, 5]] (by decide) (by decide)⟩

/-- C3: `Model::run` with a wrong batch count fails with
`BatchSize(tokens.len(), max_batch)`, and with matching batch count but
zero total tokens fails with `EmptyInput`; in both cases the guards
return before the consuming loop runs, so `tokens` is left unchanged (no
`run_internal` call — hence no GPU work — is reached). -/
theorem run_error_guards (cs mb : Nat) (tokens : List (List Nat)) :
    (tokens.length ≠ mb →
      modelRun cs mb tokens = .error (ModelError.BatchSize tokens.length mb) ∧
      modelRunTokens cs mb tokens = tokens) ∧
    (tokens.length = mb → sumLen tokens = 0 →
      modelRun cs mb tokens = .error ModelError.EmptyInput ∧
      modelRunTokens cs mb tokens = tokens) := by
  constructor
  · intro h
    have : modelRun cs mb tokens = .error (ModelError.BatchSize tokens.length mb) := by
      simp only [modelRun, if_pos h]
    exact ⟨this, by simp [modelRunTokens, this]⟩
  · intro h he
    have h1 : ¬ tokens.length ≠ mb := by simp [h]
    have : modelRun cs mb tokens = .error ModelError.EmptyInput := by
      simp only [modelRun, if_neg h1, if_pos he]
    exact ⟨this, by simp [modelRunTokens, this]⟩

/-- Witness for C3: both error cases at concrete inputs. -/
theorem run_error_guards_witness :
    (([[1]] : List (List Nat)).length ≠ 2 ∧
      modelRun 32 2 [[1]] = .error (ModelError.BatchSize 1 2) ∧
      modelRunTokens 32 2 [[1]] = [[1]]) ∧
    (([[], []] : List (List Nat)).length = 2 ∧ sumLen [[], []] = 0 ∧
      modelRun 32 2 [[], []] = .error ModelError.EmptyInput ∧
      modelRunTokens 32 2 [[], []] = [[], []]) :=
  ⟨⟨by decide, (run_error_guards 32 2 [[1]]).1 (by decide)⟩,
    ⟨by decide, by decide, (run_error_guards 32 2 [[], []]).2 (by decide) (by decide)⟩⟩

/-! ## Job runtime worker (`src/runtime/mod.rs`)

`JobRuntime::run` is a single async worker task.  Its visible behaviour
is deterministic in program order, so it is embedded as a function from
the (FIFO) list of submissions pulled off the capacity-1 channel to the
ordered trace of worker actions, the worker's exit status, and the fate
of each submission's one-shot reply.  Trait-polymorphic parts (`Job`,
`JobBuilder`, `JobInput`) are abstracted by per-submission flags that
record how the generic calls would resolve. -/

/-- One submission, abstracted to the data the worker's control flow
inspects: how many items the input's info iterator yields, whether a
pending predicted job passes `job.check`, and whether the fallible calls
(`builder.build(info)`, `builder.build(next_info)`, `job.load`,
`job.back`) succeed. -/
structure Sub where
  infoCount : Nat
  compat : Bool
  buildOk : Bool
  nextOk : Bool
  loadOk : Bool
  backOk : Bool
deriving DecidableEq

/-- Observable worker actions, tagged with the submission's position in
the channel order. -/
inductive Ev
  | recv (i : Nat)
  | skip (i : Nat)
  | reuse (i : Nat)
  | build (i : Nat)
  | load (i : Nat)
  | submit (i : Nat)
  | spawnBack (i : Nat)
  | specBuild (i : Nat)
  | awaitBack (i : Nat)
deriving DecidableEq

/-- Exit status of the worker loop: `ok` when the channel closes, `err`
when a `?` propagates an error out of `JobRuntime::run`. -/
inductive WorkerExit
  | ok
  | err
deriving DecidableEq

/-- Fate of a submission's one-shot reply channel: `sent` when the
readback task delivers `(input, output)`, `dropped` when the sender is
dropped without sending (the caller sees a closed channel), and
`unprocessed` when the worker terminated before ever receiving the
submission. -/
inductive Reply
  | sent
  | dropped
  | unprocessed
deriving DecidableEq

/-- Embedding of one iteration of the `while let Some(Submission { .. })`
loop body of `JobRuntime::run`.  Returns the events of the iteration, the
predicted-job flag for the next iteration (`none` when the iteration
propagates an error and the worker terminates), and the reply fate.
Mirrors the source order: empty info iterator → `continue` (reply sender
dropped); reuse the predicted job iff one is pending and `job.check`
passes, else `builder.build(info)?`; then `load?`, `submit`, spawn the
detached readback task, speculatively `builder.build(next_info)?` when a
next info exists, and finally await the readback handle. -/
def stepSub (predict : Bool) (i : Nat) (s : Sub) :
    List Ev × Option Bool × Reply :=
  if s.infoCount = 0 then
    ([Ev.recv i, Ev.skip i], some predict, Reply.dropped)
  else
    let reused := predict && s.compat
    if !reused && !s.buildOk then
      ([Ev.recv i, Ev.build i], none, Reply.dropped)
    else
      let getEv := if reused then Ev.reuse i else Ev.build i
      if !s.loadOk then
        ([Ev.recv i, getEv, Ev.load i], none, Reply.dropped)
      else
        let head := [Ev.recv i, getEv, Ev.load i, Ev.submit i, Ev.spawnBack i]
        let hasNext : Bool := decide (2 ≤ s.infoCount)
        if hasNext && !s.nextOk then
          (head ++ [Ev.specBuild i], none,
           if s.backOk then Reply.sent else Reply.dropped)
        else
          let specEvs := if hasNext then [Ev.specBuild i] else []
          if !s.backOk then
            (head ++ specEvs ++ [Ev.awaitBack i], none, Reply.dropped)
          else
            (head ++ specEvs ++ [Ev.awaitBack i], some hasNext, Reply.sent)

/-- Embedding of the whole `JobRuntime::run` worker loop over the FIFO
list of submissions.  When an iteration exits with an error, the worker
returns: later submissions are never received and their reply senders are
dropped inside the closed channel (`unprocessed`). -/
def runWorker (predict : Bool) (i : Nat) :
    List Sub → List Ev × WorkerExit × List Reply
  | [] => ([], WorkerExit.ok, [])
  | s :: rest =>
    match stepSub predict i s with
    | (evs, some p, rep) =>
      let r := runWorker p (i + 1) rest
      (evs ++ r.1, r.2.1, rep :: r.2.2)
    | (evs, none, rep) =>
      (evs, WorkerExit.err, rep :: rest.map (fun _ => Reply.unprocessed))

/-- Submission index of a worker event. -/
def evIdx : Ev → Nat
  | .recv i => i
  | .skip i => i
  | .reuse i => i
  | .build i => i
  | .load i => i
  | .submit i => i
  | .spawnBack i => i
  | .specBuild i => i
  | .awaitBack i => i

/-- Relation between adjacent trace events: a speculative build is
immediately followed — if anything follows at all — by the worker
observing the completion of the same submission's readback. -/
def specRel (a b : Ev) : Prop := ∀ i, a = Ev.specBuild i → b = Ev.awaitBack i

theorem stepSub_idx (predict : Bool) (i : Nat) (s : Sub) :
    ∀ e ∈ (stepSub predict i s).1, evIdx e = i := by
  simp only [stepSub]
  split_ifs <;>
    (intro e he
     try simp only [List.cons_append, List.nil_append, List.append_nil] at he
     fin_cases he <;> rfl)

theorem stepSub_chain (predict : Bool) (i : Nat) (s : Sub) :
    List.Chain' specRel (stepSub predict i s).1 := by
  simp only [stepSub]
  split_ifs <;> simp [specRel, List.chain'_cons, List.Chain']

theorem stepSub_cont_last (predict : Bool) (i : Nat) (s : Sub) (p : Bool)
    (h : (stepSub predict i s).2.1 = some p) (j : Nat) :
    (stepSub predict i s).1.getLast? ≠ some (Ev.specBuild j) := by
  simp only [stepSub] at h ⊢
  split_ifs at h ⊢ <;> simp_all

theorem stepSub_cont_await (predict : Bool) (i : Nat) (s : Sub) (p : Bool)
    (h : (stepSub predict i s).2.1 = some p)
    (hs : Ev.submit i ∈ (stepSub predict i s).1) :
    Ev.awaitBack i ∈ (stepSub predict i s).1 := by
  simp only [stepSub] at h hs ⊢
  split_ifs at h hs ⊢ <;> simp_all

theorem runWorker_idx_lb (predict : Bool) (i : Nat) (subs : List Sub) :
    ∀ e ∈ (runWorker predict i subs).1, i ≤ evIdx e := by
  induction subs generalizing predict i with
  | nil => simp [runWorker]
  | cons s rest ih =>
    intro e he
    rcases hstep : stepSub predict i s with ⟨evs, cont, rep⟩
    cases cont with
    | some p =>
      rw [runWorker, hstep] at he
      rcases List.mem_append.mp he with h1 | h1
      · have := stepSub_idx predict i s e (by rw [hstep]; exact h1)
        omega
      · have := ih p (i + 1) e h1
        omega
    | none =>
      rw [runWorker, hstep] at he
      have := stepSub_idx predict i s e (by rw [hstep]; exact he)
      omega

theorem sorted_of_const (n : Nat) (l : List Nat) (h : ∀ x ∈ l, x = n) :
    l.Sorted (· ≤ ·) := by
  induction l with
  | nil => simp
  | cons a t ih =>
    rw [List.sorted_cons]
    refine ⟨fun b hb => ?_, ih fun x hx => h x (by simp [hx])⟩
    rw [h a (by simp), h b (by simp [hb])]

/-- C4: the worker processes submissions strictly in FIFO order — the
trace of worker actions is sorted by submission index, so nothing of a
later submission happens before an earlier one is finished; the
speculatively built next job is only constructed: the event right after a
speculative build, if any, is the worker awaiting the prior submission's
readback completion, so the speculative job is never loaded or submitted
before that readback completes; and whenever a submission's job was
submitted and a further submission is received, the worker awaited the
earlier readback in between. -/
theorem worker_fifo_lookahead (predict : Bool) (idx : Nat) (subs : List Sub) :
    ((runWorker predict idx subs).1.map evIdx).Sorted (· ≤ ·) ∧
    List.Chain' specRel (runWorker predict idx subs).1 ∧
    ∀ i, Ev.submit i ∈ (runWorker predict idx subs).1 →
      Ev.recv (i + 1) ∈ (runWorker predict idx subs).1 →
      Ev.awaitBack i ∈ (runWorker predict idx subs).1 := by
  induction subs generalizing predict idx with
  | nil => refine ⟨by simp [runWorker], by simp [runWorker], by simp [runWorker]⟩
  | cons s rest ih =>
    rcases hstep : stepSub predict idx s with ⟨evs, cont, rep⟩
    have hevs : ∀ e ∈ evs, evIdx e = idx := by
      intro e he
      exact stepSub_idx predict idx s e (by rw [hstep]; exact he)
    cases cont with
    | none =>
      have hrw : (runWorker predict idx (s :: rest)).1 = evs := by
        rw [runWorker, hstep]
      rw [hrw]
      refine ⟨sorted_of_const idx _ (by simpa using hevs), ?_, ?_⟩
      · have := stepSub_chain predict idx s
        rwa [hstep] at this
      · intro i hsub hrecv
        have h1 := hevs _ hsub
        have h2 := hevs _ hrecv
        simp [evIdx] at h1 h2
        omega
    | some p =>
      have hrw : (runWorker predict idx (s :: rest)).1 =
          evs ++ (runWorker p (idx + 1) rest).1 := by
        rw [runWorker, hstep]
      obtain ⟨ihs, ihc, iha⟩ := ih p (idx + 1)
      have htail : ∀ e ∈ (runWorker p (idx + 1) rest).1, idx + 1 ≤ evIdx e :=
        runWorker_idx_lb p (idx + 1) rest
      rw [hrw]
      refine ⟨?_, ?_, ?_⟩
      · rw [List.map_append]
        refine List.pairwise_append.mpr
          ⟨sorted_of_const idx _ (by simpa using hevs), ihs, ?_⟩
        intro x hx y hy
        simp only [List.mem_map] at hx hy
        obtain ⟨ex, hex, rfl⟩ := hx
        obtain ⟨ey, hey, rfl⟩ := hy
        have := hevs ex hex
        have := htail ey hey
        omega
      · rw [List.chain'_append]
        refine ⟨?_, ihc, ?_⟩
        · have := stepSub_chain predict idx s
          rwa [hstep] at this
        · intro x hx y hy
          intro j hj
          subst hj
          exfalso
          have : evs.getLast? ≠ some (Ev.specBuild j) := by
            have := stepSub_cont_last predict idx s p (by rw [hstep]) j
            rwa [hstep] at this
          exact this hx
      · intro i hsub hrecv
        rcases List.mem_append.mp hsub with h1 | h1
        · have hi : i = idx := by have := hevs _ h1; simpa [evIdx] using this
          subst hi
          have haw : Ev.awaitBack i ∈ evs := by
            have := stepSub_cont_await predict i s p (by rw [hstep])
              (by rw [hstep]; exact h1)
            rwa [hstep] at this
          exact List.mem_append.mpr (Or.inl haw)
        · rcases List.mem_append.mp hrecv with h2 | h2
          · exfalso
            have ha := hevs _ h2
            have hb := htail _ h1
            simp [evIdx] at ha hb
            omega
          · exact List.mem_append.mpr
              (Or.inr (iha i h1 h2))

/-- Witness for C4 at a concrete submission list: two successful
submissions, the first with a lookahead info. -/
theorem worker_fifo_lookahead_witness :
    ((runWorker false 0 [⟨2, false, true, true, true, true⟩,
        ⟨1, true, true, true, true, true⟩]).1.map evIdx).Sorted (· ≤ ·) ∧
    List.Chain' specRel (runWorker false 0 [⟨2, false, true, true, true, true⟩,
        ⟨1, true, true, true, true, true⟩]).1 ∧
    ∀ i, Ev.submit i ∈ (runWorker false 0 [⟨2, false, true, true, true, true⟩,
        ⟨1, true, true, true, true, true⟩]).1 →
      Ev.recv (i + 1) ∈ (runWorker false 0 [⟨2, false, true, true, true, true⟩,
        ⟨1, true, true, true, true, true⟩]).1 →
      Ev.awaitBack i ∈ (runWorker false 0 [⟨2, false, true, true, true, true⟩,
        ⟨1, true, true, true, true, true⟩]).1 :=
  worker_fifo_lookahead false 0 _

/-- C9: a submission whose info iterator yields nothing is skipped
entirely: the worker emits no build, load, submit or spawn action for it
(its only trace events are receiving and skipping it), its reply sender
is dropped without sending — so the caller's one-shot receiver resolves
with a channel-closed error — and the worker carries the unchanged
prediction on to the next submission. -/
theorem worker_skip_empty (predict : Bool) (i : Nat) (s : Sub)
    (rest : List Sub) (h : s.infoCount = 0) :
    runWorker predict i (s :: rest) =
      (Ev.recv i :: Ev.skip i :: (runWorker predict (i + 1) rest).1,
       (runWorker predict (i + 1) rest).2.1,
       Reply.dropped :: (runWorker predict (i + 1) rest).2.2) ∧
    ∀ e ∈ (runWorker predict i (s :: rest)).1,
      evIdx e = i → e = Ev.recv i ∨ e = Ev.skip i := by
  have hstep : stepSub predict i s =
      ([Ev.recv i, Ev.skip i], some predict, Reply.dropped) := by
    simp [stepSub, h]
  have hrw : runWorker predict i (s :: rest) =
      (Ev.recv i :: Ev.skip i :: (runWorker predict (i + 1) rest).1,
       (runWorker predict (i + 1) rest).2.1,
       Reply.dropped :: (runWorker predict (i + 1) rest).2.2) := by
    simp only [runWorker, hstep, List.cons_append, List.nil_append]
  refine ⟨hrw, ?_⟩
  intro e he hidx
  rw [hrw] at he
  rcases List.mem_cons.mp he with rfl | he'
  · exact Or.inl rfl
  rcases List.mem_cons.mp he' with rfl | he''
  · exact Or.inr rfl
  exfalso
  have := runWorker_idx_lb predict (i + 1) rest e he''
  omega

/-- Witness for C9 at a concrete input: an empty-info submission followed
by an ordinary one. -/
theorem worker_skip_empty_witness :
    (Sub.mk 0 false false false false false).infoCount = 0 ∧
    (runWorker false 0 [⟨0, false, false, false, false, false⟩,
        ⟨1, false, true, true, true, true⟩] =
      (Ev.recv 0 :: Ev.skip 0 ::
         (runWorker false 1 [⟨1, false, true, true, true, true⟩]).1,
       (runWorker false 1 [⟨1, false, true, true, true, true⟩]).2.1,
       Reply.dropped ::
         (runWorker false 1 [⟨1, false, true, true, true, true⟩]).2.2) ∧
     ∀ e ∈ (runWorker false 0 [⟨0, false, false, false, false, false⟩,
        ⟨1, false, true, true, true, true⟩]).1,
       evIdx e = 0 → e = Ev.recv 0 ∨ e = Ev.skip 0) :=
  ⟨rfl, worker_skip_empty false 0 ⟨0, false, false, false, false, false⟩
    [⟨1, false, true, true, true, true⟩] rfl⟩

/-- C10: when the speculative build of the next job fails, the worker
propagates the error and terminates: its trace ends right at the failed
speculative build, every later submission is left unprocessed (never
received, its reply sender dropped), yet the current submission's own
result is still delivered — its readback task was spawned, detached,
before the speculative build, so its reply is `sent`. -/
theorem worker_spec_build_error (predict : Bool) (i : Nat) (s : Sub)
    (rest : List Sub) (hn : 2 ≤ s.infoCount) (hfail : s.nextOk = false)
    (hjob : (predict && s.compat) = true ∨ s.buildOk = true)
    (hload : s.loadOk = true) (hback : s.backOk = true) :
    runWorker predict i (s :: rest) =
      ([Ev.recv i, if predict && s.compat then Ev.reuse i else Ev.build i,
        Ev.load i, Ev.submit i, Ev.spawnBack i, Ev.specBuild i],
       WorkerExit.err,
       Reply.sent :: rest.map (fun _ => Reply.unprocessed)) := by
  have h0 : ¬ s.infoCount = 0 := by omega
  have hnext : decide (2 ≤ s.infoCount) = true := decide_eq_true hn
  have hstep : stepSub predict i s =
      ([Ev.recv i, if predict && s.compat then Ev.reuse i else Ev.build i,
        Ev.load i, Ev.submit i, Ev.spawnBack i, Ev.specBuild i],
       none, Reply.sent) := by
    rcases hjob with hj | hj <;>
      simp [stepSub, h0, hj, hfail, hload, hback, hnext]
  simp only [runWorker, hstep]

/-- Witness for C10 at a concrete input: a submission with a lookahead
info whose speculative build fails, followed by a submission that is then
never processed. -/
theorem worker_spec_build_error_witness :
    (2 ≤ (Sub.mk 2 false true false true true).infoCount ∧
      (Sub.mk 2 false true false true true).nextOk = false ∧
      (Sub.mk 2 false true false true true).loadOk = true ∧
      (Sub.mk 2 false true false true true).backOk = true) ∧
    runWorker false 0 [⟨2, false, true, false, true, true⟩,
        ⟨1, true, true, true, true, true⟩] =
      ([Ev.recv 0, if false && (Sub.mk 2 false true false true true).compat
          then Ev.reuse 0 else Ev.build 0,
        Ev.load 0, Ev.submit 0, Ev.spawnBack 0, Ev.specBuild 0],
       WorkerExit.err,
       Reply.sent :: [Sub.mk 1 true true true true true].map
         (fun _ => Reply.unprocessed)) :=
  ⟨⟨by decide, rfl, rfl, rfl⟩,
    worker_spec_build_error false 0 ⟨2, false, true, false, true, true⟩
      [⟨1, true, true, true, true, true⟩] (by decide) rfl (Or.inr rfl) rfl rfl⟩

/-! ## Tensor ops shape validation (`src/tensor/ops.rs`) -/

/-- Truncating cast to `u32`, as in `as u32`. -/
def u32cast (n : Nat) : Nat := n % 2 ^ 32

/-- Tensor shape `[C, T, B]`, accessed as `shape[0]`, `shape[1]`,
`shape[2]` in the source. -/
structure Shape where
  d0 : Nat
  d1 : Nat
  d2 : Nat
deriving DecidableEq

/-- Mirror of `Shape::new`. -/
def Shape.new (d0 d1 d2 : Nat) : Shape := ⟨d0, d1, d2⟩

/-- Modelled from the spec: the `TensorError` cases used by the kernel
library's shape validation (`ShapeMismatch{expected, actual}` for any
tensor-level check, `OutOfBounds` for view ranges).  The enum itself
lives in `src/tensor/mod.rs`, which is not part of the provided
sources. -/
inductive TensorError
  | ShapeMismatch (expected actual : Shape)
  | OutOfBounds
deriving DecidableEq

/-- Modelled from the spec: `check_shape(expected)` is the "validation
helper used by every kernel entry point"; shape broadcasting and implicit
reshape are not supported, so it succeeds exactly on equality and
otherwise fails with `ShapeMismatch{expected, actual}`.  (Defined in
`src/tensor/mod.rs`, not among the provided sources.)  `actual` is the
shape of the tensor the method is called on. -/
def Shape.check_shape (actual expected : Shape) : Except TensorError Unit :=
  if actual = expected then .ok () else .error (.ShapeMismatch expected actual)

/-- Commands recorded on a `CommandEncoder` (buffer offsets and byte
sizes are not modelled; the tensors are identified by their shapes). -/
inductive Command
  | copyBufferToBuffer (src dst : Shape)
deriving DecidableEq

/-- Embedding of `TensorCommand::copy_tensor` for `CommandEncoder`
(`src/tensor/ops.rs`): check the source shape against the destination
shape, then record the buffer-to-buffer copy.  The encoder is the list of
commands recorded so far; on error it is returned to by the caller
unchanged (the function fails before recording). -/
def copy_tensor (encoder : List Command) (source destination : Shape) :
    Except TensorError (List Command) :=
  match source.check_shape destination with
  | .error e => .error e
  | .ok _ => .ok (encoder ++ [Command.copyBufferToBuffer source destination])

/-- A built tensor op: the compiled pipeline it binds (identified by its
stable name) and the workgroup dispatch size.  Bind-group contents are
not modelled; an op value exists only if validation passed. -/
structure TensorOp where
  pipeline : String
  dispatch : Nat × Nat × Nat
deriving DecidableEq

/-- Embedding of `TensorOp::matmul` (`src/tensor/ops.rs`): fp16 matrix
multiplication with `matrix` checked against
`[input.shape[0], output.shape[0], 1]` and `input` against
`[matrix.shape[0], output.shape[1], output.shape[2]]` before anything is
built. -/
def matmul (matrix input output : Shape) : Except TensorError TensorOp :=
  match matrix.check_shape (Shape.new input.d0 output.d0 1) with
  | .error e => .error e
  | .ok _ =>
    match input.check_shape (Shape.new matrix.d0 output.d1 output.d2) with
    | .error e => .error e
    | .ok _ =>
      .ok ⟨"matmul",
        (u32cast matrix.d1 / 4, u32cast output.d1, u32cast output.d2)⟩

/-- Embedding of `TensorOp::quantize_mat_int8` (`src/tensor/ops.rs`):
after validating `input` against the output shape and the four
scale/offset vectors against `[shape[0],1,1]` / `[shape[1],1,1]`, build
the five kernels and order them depending on `shape[1] > shape[0]`. -/
def quantize_mat_int8 (input mx rx my ry output : Shape) :
    Except TensorError (List TensorOp) :=
  match input.check_shape output with
  | .error e => .error e
  | .ok _ =>
  match mx.check_shape (Shape.new output.d0 1 1) with
  | .error e => .error e
  | .ok _ =>
  match rx.check_shape (Shape.new output.d0 1 1) with
  | .error e => .error e
  | .ok _ =>
  match my.check_shape (Shape.new output.d1 1 1) with
  | .error e => .error e
  | .ok _ =>
  match ry.check_shape (Shape.new output.d1 1 1) with
  | .error e => .error e
  | .ok _ =>
  let opMy : TensorOp := ⟨"quant_mat_int8_my", (1, u32cast output.d1, 1)⟩
  let opRy : TensorOp := ⟨"quant_mat_int8_ry", (1, u32cast output.d1, 1)⟩
  let opMx : TensorOp := ⟨"quant_mat_int8_mx", (1, u32cast output.d0 / 4, 1)⟩
  let opRx : TensorOp := ⟨"quant_mat_int8_rx", (1, u32cast output.d0 / 4, 1)⟩
  let opQuantize : TensorOp :=
    ⟨"quant_mat_int8", (u32cast output.d0 / 4, u32cast output.d1, 1)⟩
  if output.d1 > output.d0 then
    .ok [opMy, opMx, opRx, opRy, opQuantize]
  else
    .ok [opMx, opMy, opRx, opRy, opQuantize]

/-- C5: kernel entry points validate operand shapes before anything is
recorded or built, failing with `ShapeMismatch` otherwise.  In
particular: `copy_tensor` records the buffer-to-buffer copy exactly when
the source shape equals the destination shape and on mismatch fails with
`ShapeMismatch` leaving the encoder untouched; and `matmul` succeeds
exactly on the pattern `matrix [C,R,1]`, `input [C,T,B]`,
`output [R,T,B]`, any failure being a `ShapeMismatch`. -/
theorem check_shape_ok (a b : Shape) (h : a = b) :
    a.check_shape b = .ok () := by
  simp [Shape.check_shape, h]

theorem check_shape_err (a b : Shape) (h : a ≠ b) :
    a.check_shape b = .error (.ShapeMismatch b a) := by
  simp [Shape.check_shape, h]

theorem kernel_shape_validation :
    (∀ (encoder : List Command) (src dst : Shape),
      (src = dst →
        copy_tensor encoder src dst =
          .ok (encoder ++ [Command.copyBufferToBuffer src dst])) ∧
      (src ≠ dst →
        copy_tensor encoder src dst =
          .error (TensorError.ShapeMismatch dst src))) ∧
    (∀ matrix input output : Shape,
      ((∃ op, matmul matrix input output = .ok op) ↔
        ∃ C R T B, matrix = Shape.new C R 1 ∧ input = Shape.new C T B ∧
          output = Shape.new R T B) ∧
      (∀ e, matmul matrix input output = .error e →
        ∃ expected actual, e = TensorError.ShapeMismatch expected actual)) := by
  constructor
  · intro encoder src dst
    constructor
    · intro h
      simp only [copy_tensor, check_shape_ok src dst h]
    · intro h
      simp only [copy_tensor, check_shape_err src dst h]
  · intro matrix input output
    by_cases h1 : matrix = Shape.new input.d0 output.d0 1
    · by_cases h2 : input = Shape.new matrix.d0 output.d1 output.d2
      · have hm : matmul matrix input output =
            .ok ⟨"matmul", (u32cast matrix.d1 / 4, u32cast output.d1,
              u32cast output.d2)⟩ := by
          simp only [matmul, check_shape_ok _ _ h1, check_shape_ok _ _ h2]
        refine ⟨⟨fun _ => ?_, fun _ => ⟨_, hm⟩⟩, fun e he => ?_⟩
        · refine ⟨input.d0, output.d0, output.d1, output.d2, h1, ?_, rfl⟩
          rw [h1] at h2
          exact h2
        · rw [hm] at he
          exact absurd he (by simp)
      · have hm : matmul matrix input output =
            .error (.ShapeMismatch (Shape.new matrix.d0 output.d1 output.d2)
              input) := by
          simp only [matmul, check_shape_ok _ _ h1, check_shape_err _ _ h2]
        refine ⟨⟨fun hex => ?_, fun hpat => ?_⟩, fun e he => ?_⟩
        · obtain ⟨op, hop⟩ := hex
          rw [hm] at hop
          exact absurd hop (by simp)
        · exfalso
          obtain ⟨C, R, T, B, e1, e2, e3⟩ := hpat
          apply h2
          subst e1 e2 e3
          rfl
        · rw [hm] at he
          exact ⟨_, _, (Except.error.inj he).symm⟩
    · have hm : matmul matrix input output =
          .error (.ShapeMismatch (Shape.new input.d0 output.d0 1) matrix) := by
        simp only [matmul, check_shape_err _ _ h1]
      refine ⟨⟨fun hex => ?_, fun hpat => ?_⟩, fun e he => ?_⟩
      · obtain ⟨op, hop⟩ := hex
        rw [hm] at hop
        exact absurd hop (by simp)
      · exfalso
        obtain ⟨C, R, T, B, e1, e2, e3⟩ := hpat
        apply h1
        subst e1 e2 e3
        rfl
      · rw [hm] at he
        exact ⟨_, _, (Except.error.inj he).symm⟩

/-- Witness for C5: a successful and a failing copy, and a matmul on the
declared pattern. -/
theorem kernel_shape_validation_witness :
    ((Shape.new 4 1 1 = Shape.new 4 1 1 →
        copy_tensor [] (Shape.new 4 1 1) (Shape.new 4 1 1) =
          .ok ([] ++ [Command.copyBufferToBuffer (Shape.new 4 1 1)
            (Shape.new 4 1 1)])) ∧
      (Shape.new 4 1 1 ≠ Shape.new 3 1 1 →
        copy_tensor [] (Shape.new 4 1 1) (Shape.new 3 1 1) =
          .error (TensorError.ShapeMismatch (Shape.new 3 1 1)
            (Shape.new 4 1 1)))) ∧
    ((∃ op, matmul (Shape.new 1024 768 1) (Shape.new 1024 7 3)
        (Shape.new 768 7 3) = .ok op) ↔
      ∃ C R T B, Shape.new 1024 768 1 = Shape.new C R 1 ∧
        Shape.new 1024 7 3 = Shape.new C T B ∧
        Shape.new 768 7 3 = Shape.new R T B) :=
  ⟨⟨(kernel_shape_validation.1 [] (Shape.new 4 1 1) (Shape.new 4 1 1)).1,
    (kernel_shape_validation.1 [] (Shape.new 4 1 1) (Shape.new 3 1 1)).2⟩,
    (kernel_shape_validation.2 (Shape.new 1024 768 1) (Shape.new 1024 7 3)
      (Shape.new 768 7 3)).1⟩

/-- C7: on well-shaped inputs `quantize_mat_int8` returns exactly five
ops — the four scale/offset kernels then the quantize kernel — ordered
`[my, mx, rx, ry, quantize]` when `shape[1] > shape[0]` and
`[mx, my, rx, ry, quantize]` otherwise. -/
theorem quantize_mat_int8_order (input mx rx my ry output : Shape)
    (h1 : input = output)
    (h2 : mx = Shape.new output.d0 1 1) (h3 : rx = Shape.new output.d0 1 1)
    (h4 : my = Shape.new output.d1 1 1) (h5 : ry = Shape.new output.d1 1 1) :
    quantize_mat_int8 input mx rx my ry output =
      .ok (if output.d1 > output.d0 then
        [⟨"quant_mat_int8_my", (1, u32cast output.d1, 1)⟩,
         ⟨"quant_mat_int8_mx", (1, u32cast output.d0 / 4, 1)⟩,
         ⟨"quant_mat_int8_rx", (1, u32cast output.d0 / 4, 1)⟩,
         ⟨"quant_mat_int8_ry", (1, u32cast output.d1, 1)⟩,
         ⟨"quant_mat_int8", (u32cast output.d0 / 4, u32cast output.d1, 1)⟩]
      else
        [⟨"quant_mat_int8_mx", (1, u32cast output.d0 / 4, 1)⟩,
         ⟨"quant_mat_int8_my", (1, u32cast output.d1, 1)⟩,
         ⟨"quant_mat_int8_rx", (1, u32cast output.d0 / 4, 1)⟩,
         ⟨"quant_mat_int8_ry", (1, u32cast output.d1, 1)⟩,
         ⟨"quant_mat_int8", (u32cast output.d0 / 4, u32cast output.d1, 1)⟩]) := by
  have c1 := check_shape_ok input output h1
  have c2 := check_shape_ok mx (Shape.new output.d0 1 1) h2
  have c3 := check_shape_ok rx (Shape.new output.d0 1 1) h3
  have c4 := check_shape_ok my (Shape.new output.d1 1 1) h4
  have c5 := check_shape_ok ry (Shape.new output.d1 1 1) h5
  by_cases h : output.d1 > output.d0 <;>
    simp [quantize_mat_int8, c1, c2, c3, c4, c5, h]

/-- Witness for C7: both branch shapes at concrete sizes. -/
theorem quantize_mat_int8_order_witness :
    quantize_mat_int8 (Shape.new 4 8 1) (Shape.new 4 1 1) (Shape.new 4 1 1)
        (Shape.new 8 1 1) (Shape.new 8 1 1) (Shape.new 4 8 1) =
      .ok (if (Shape.new 4 8 1).d1 > (Shape.new 4 8 1).d0 then
        [⟨"quant_mat_int8_my", (1, u32cast (Shape.new 4 8 1).d1, 1)⟩,
         ⟨"quant_mat_int8_mx", (1, u32cast (Shape.new 4 8 1).d0 / 4, 1)⟩,
         ⟨"quant_mat_int8_rx", (1, u32cast (Shape.new 4 8 1).d0 / 4, 1)⟩,
         ⟨"quant_mat_int8_ry", (1, u32cast (Shape.new 4 8 1).d1, 1)⟩,
         ⟨"quant_mat_int8", (u32cast (Shape.new 4 8 1).d0 / 4,
            u32cast (Shape.new 4 8 1).d1, 1)⟩]
      else
        [⟨"quant_mat_int8_mx", (1, u32cast (Shape.new 4 8 1).d0 / 4, 1)⟩,
         ⟨"quant_mat_int8_my", (1, u32cast (Shape.new 4 8 1).d1, 1)⟩,
         ⟨"quant_mat_int8_rx", (1, u32cast (Shape.new 4 8 1).d0 / 4, 1)⟩,
         ⟨"quant_mat_int8_ry", (1, u32cast (Shape.new 4 8 1).d1, 1)⟩,
         ⟨"quant_mat_int8", (u32cast (Shape.new 4 8 1).d0 / 4,
            u32cast (Shape.new 4 8 1).d1, 1)⟩]) :=
  quantize_mat_int8_order (Shape.new 4 8 1) (Shape.new 4 1 1)
    (Shape.new 4 1 1) (Shape.new 8 1 1) (Shape.new 8 1 1) (Shape.new 4 8 1)
    rfl rfl rfl rfl rfl

/-! ## Context auto limits (`src/runtime/model.rs`)

`usize` arithmetic is embedded as `Nat` reduced `% 2 ^ 64` (64-bit
target); the `as u64` cast of a value `< 2 ^ 64` is exact, while the
`as u32` cast truncates `% 2 ^ 32`. -/

/-- Mirror of the `ModelVersion` enum of `src/runtime/model.rs`. -/
inductive ModelVersion
  | V4
  | V5
  | V6
deriving DecidableEq

/-- Mirror of the `ModelInfo` struct of `src/runtime/model.rs`. -/
structure ModelInfo where
  version : ModelVersion
  num_layer : Nat
  num_emb : Nat
  num_hidden : Nat
  num_vocab : Nat
  num_head : Nat
  time_mix_adapter_size : Nat
  time_decay_adapter_size : Nat
deriving DecidableEq

/-- `ModelInfo::BUFFER_SIZE = 256 << 20` (256 MiB). -/
def ModelInfo.BUFFER_SIZE : Nat := 256 <<< 20

/-- `ModelInfo::STORAGE_BUFFER_BINDING_SIZE = 128 << 20` (128 MiB). -/
def ModelInfo.STORAGE_BUFFER_BINDING_SIZE : Nat := 128 <<< 20

/-- `ModelInfo::max_non_head_buffer_size`:
`num_emb * num_hidden * f16::size()` with `f16::size() = 2`, in `usize`
arithmetic. -/
def ModelInfo.max_non_head_buffer_size (info : ModelInfo) : Nat :=
  info.num_emb * info.num_hidden * 2 % 2 ^ 64

/-- `ModelInfo::head_buffer_size`: `num_emb * num_vocab * f16::size()`,
in `usize` arithmetic. -/
def ModelInfo.head_buffer_size (info : ModelInfo) : Nat :=
  info.num_emb * info.num_vocab * 2 % 2 ^ 64

/-- The two wgpu device limits that `auto_limits` writes: a `u64` field
and a `u32` field. -/
structure Limits where
  max_buffer_size : Nat
  max_storage_buffer_binding_size : Nat
deriving DecidableEq

/-- Embedding of `ContextAutoLimits::auto_limits` for `ContextBuilder`
(`src/runtime/model.rs`): the buffer-size limit is the `usize` max cast
`as u64` (exact, both 64-bit), the storage-binding limit is the `usize`
max cast `as u32` (truncating). -/
def auto_limits (limits : Limits) (info : ModelInfo) : Limits :=
  { max_buffer_size :=
      (ModelInfo.BUFFER_SIZE.max info.max_non_head_buffer_size).max
        info.head_buffer_size,
    max_storage_buffer_binding_size :=
      (ModelInfo.STORAGE_BUFFER_BINDING_SIZE.max
        info.max_non_head_buffer_size).max info.head_buffer_size % 2 ^ 32 }

/-- A `ModelInfo` whose head buffer size is `2 ^ 33` bytes: 65536
embedding channels times a 65536-token vocabulary at 2 bytes each. -/
def bigHeadInfo : ModelInfo := ⟨.V4, 1, 65536, 1, 65536, 1, 0, 0⟩

/-- C6 counterexample: for `bigHeadInfo` the claim demands
`max_storage_buffer_binding_size = max(128 MiB, 131072, 2^33) = 2^33`,
but the `as u32` cast in the source truncates it to `0`. -/
theorem auto_limits_truncation_cex :
    (auto_limits ⟨0, 0⟩ bigHeadInfo).max_storage_buffer_binding_size = 0 ∧
    ((128 <<< 20 : Nat).max (65536 * 1 * 2)).max (65536 * 65536 * 2) =
      8589934592 ∧
    (auto_limits ⟨0, 0⟩ bigHeadInfo).max_storage_buffer_binding_size ≠
      ((128 <<< 20 : Nat).max (65536 * 1 * 2)).max (65536 * 65536 * 2) := by
  refine ⟨rfl, rfl, ?_⟩
  decide

/-- C6 (amended): when the two products fit in `usize`, `auto_limits`
sets `max_buffer_size` to
`max(256 MiB, num_emb·num_hidden·2, num_emb·num_vocab·2)` exactly, and
`max_storage_buffer_binding_size` to
`max(128 MiB, num_emb·num_hidden·2, num_emb·num_vocab·2)` reduced
modulo `2^32` by the `as u32` cast. -/
theorem auto_limits_values (limits : Limits) (info : ModelInfo)
    (h1 : info.num_emb * info.num_hidden * 2 < 2 ^ 64)
    (h2 : info.num_emb * info.num_vocab * 2 < 2 ^ 64) :
    (auto_limits limits info).max_buffer_size =
      (((256 <<< 20 : Nat).max (info.num_emb * info.num_hidden * 2)).max
        (info.num_emb * info.num_vocab * 2)) ∧
    (auto_limits limits info).max_storage_buffer_binding_size =
      (((128 <<< 20 : Nat).max (info.num_emb * info.num_hidden * 2)).max
        (info.num_emb * info.num_vocab * 2)) % 2 ^ 32 := by
  have e1 : info.max_non_head_buffer_size =
      info.num_emb * info.num_hidden * 2 := by
    simp only [ModelInfo.max_non_head_buffer_size]
    exact Nat.mod_eq_of_lt h1
  have e2 : info.head_buffer_size = info.num_emb * info.num_vocab * 2 := by
    simp only [ModelInfo.head_buffer_size]
    exact Nat.mod_eq_of_lt h2
  constructor
  · simp only [auto_limits, e1, e2, ModelInfo.BUFFER_SIZE]
  · simp only [auto_limits, e1, e2, ModelInfo.STORAGE_BUFFER_BINDING_SIZE]

/-- Witness for the amended C6 at a concrete `ModelInfo`
(RWKV-4 0.4B-like dimensions: emb 1024, hidden 4096, vocab 65536). -/
theorem auto_limits_values_witness :
    ((ModelInfo.mk .V4 24 1024 4096 65536 16 0 0).num_emb *
        (ModelInfo.mk .V4 24 1024 4096 65536 16 0 0).num_hidden * 2 < 2 ^ 64 ∧
      (ModelInfo.mk .V4 24 1024 4096 65536 16 0 0).num_emb *
        (ModelInfo.mk .V4 24 1024 4096 65536 16 0 0).num_vocab * 2 < 2 ^ 64) ∧
    ((auto_limits ⟨0, 0⟩ (ModelInfo.mk .V4 24 1024 4096 65536 16 0 0)).max_buffer_size =
      (((256 <<< 20 : Nat).max
        ((ModelInfo.mk .V4 24 1024 4096 65536 16 0 0).num_emb *
          (ModelInfo.mk .V4 24 1024 4096 65536 16 0 0).num_hidden * 2)).max
        ((ModelInfo.mk .V4 24 1024 4096 65536 16 0 0).num_emb *
          (ModelInfo.mk .V4 24 1024 4096 65536 16 0 0).num_vocab * 2)) ∧
    (auto_limits ⟨0, 0⟩
        (ModelInfo.mk .V4 24 1024 4096 65536 16 0 0)).max_storage_buffer_binding_size =
      (((128 <<< 20 : Nat).max
        ((ModelInfo.mk .V4 24 1024 4096 65536 16 0 0).num_emb *
          (ModelInfo.mk .V4 24 1024 4096 65536 16 0 0).num_hidden * 2)).max
        ((ModelInfo.mk .V4 24 1024 4096 65536 16 0 0).num_emb *
          (ModelInfo.mk .V4 24 1024 4096 65536 16 0 0).num_vocab * 2)) % 2 ^ 32) :=
  ⟨⟨by decide, by decide⟩,
    auto_limits_values ⟨0, 0⟩ (ModelInfo.mk .V4 24 1024 4096 65536 16 0 0)
      (by decide) (by decide)⟩

/-! ## Chat-loop occurrence map (`examples/chat.rs`) -/

/-- Embedding of the occurrence-map update that follows sampling in the
chat loop of `examples/chat.rs`:
`let count = occurrences.get(&token).unwrap_or(&1);`
`occurrences.insert(token, *count);`.
The `HashMap<u16, usize>` is embedded as a function from tokens to
`Option Nat` (`none` = key absent). -/
def occurrencesInsert (occurrences : Nat → Option Nat) (token : Nat) :
    Nat → Option Nat :=
  fun t => if t = token then some ((occurrences token).getD 1) else occurrences t

/-- C8: after sampling, the map stores for the sampled token its previous
count, or 1 if it was absent — the count is never incremented, so every
entry is either its old value or 1; other tokens are untouched. -/
theorem chat_occurrences_update (occurrences : Nat → Option Nat) (token : Nat) :
    (∀ c, occurrences token = some c →
      occurrencesInsert occurrences token token = some c) ∧
    (occurrences token = none →
      occurrencesInsert occurrences token token = some 1) ∧
    (∀ t, t ≠ token → occurrencesInsert occurrences token t = occurrences t) ∧
    (∀ t, occurrencesInsert occurrences token t = occurrences t ∨
      occurrencesInsert occurrences token t = some 1) := by
  refine ⟨fun c hc => ?_, fun hn => ?_, fun t ht => ?_, fun t => ?_⟩
  · simp [occurrencesInsert, hc]
  · simp [occurrencesInsert, hn]
  · simp [occurrencesInsert, ht]
  · by_cases ht : t = token
    · subst ht
      cases ho : occurrences t with
      | none => exact Or.inr (by simp [occurrencesInsert, ho])
      | some c => exact Or.inl (by simp [occurrencesInsert, ho])
    · exact Or.inl (by simp [occurrencesInsert, ht])

/-- Witness for C8 at a concrete map `{7 ↦ 3}` and tokens 7 and 9. -/
theorem chat_occurrences_update_witness :
    ((fun t => if t = 7 then some 3 else none) 7 = some 3 ∧
      occurrencesInsert (fun t => if t = 7 then some 3 else none) 7 7 =
        some 3) ∧
    ((fun t => if t = 7 then some 3 else none) 9 = none ∧
      occurrencesInsert (fun t => if t = 7 then some 3 else none) 9 9 =
        some 1) :=
  ⟨⟨rfl, (chat_occurrences_update (fun t => if t = 7 then some 3 else none) 7).1
      3 rfl⟩,
    ⟨rfl, ((chat_occurrences_update (fun t => if t = 7 then some 3 else none) 9).2).1
      rfl⟩⟩

end WebRwkv
